import Mathlib

/-!
Verification of the queue_stats AMI (Asterisk Manager Interface) layer.

The repository's hard core is the AMI client: a line-oriented protocol codec,
a session that correlates action responses to pending requests, an event
fan-out with bounded per-subscriber backlogs, and the React control view that
consumes the live feed.  The backend implementation (`backend/stats/ami_manager.py`,
`backend/queue_stats_backend/consumers.py`, `backend/stats/ami_views.py`) is not
included in the source snapshot, so those parts are modelled from the spec; the
front-end view `src/frontend/src/views/AMIControlView.jsx` is embedded from its
source.
-/

namespace AMI

/-! ## Protocol messages (spec §3) -/

/-- A framed protocol block: an ordered sequence of key–value lines (spec §3 Raw Block). -/
abbrev RawBlock := List (String × String)

/-- Status of an ActionResponse: `Response: Success` vs `Response: Error`. -/
inductive RespStatus
  | success
  | error
deriving DecidableEq, Repr

/-- An asynchronous PBX event; duplicate field keys are preserved in order. -/
structure AMIEvent where
  name : String
  fields : List (String × String)
deriving DecidableEq, Repr

/-- A correlated response to a submitted action. -/
structure ActionResponse where
  actionId : String
  status : RespStatus
  fields : List (String × String)
deriving DecidableEq, Repr

/-- Decoded message: discriminated union of Event and ActionResponse (spec §3). -/
inductive Message
  | event (e : AMIEvent)
  | response (r : ActionResponse)
deriving DecidableEq, Repr

/-- Decode failure: the block carries neither discriminator field. -/
inductive DecodeError
  | noDiscriminator
deriving DecidableEq, Repr

/-- Encode failure: a value contains a line break (spec §4.2). -/
inductive EncodeError
  | valueHasLineBreak
deriving DecidableEq, Repr

/-- First value bound to key `k` in a block. -/
def findVal (b : RawBlock) (k : String) : Option String :=
  (b.find? (fun p => p.1 = k)).map (fun p => p.2)

/-- Whether a block contains a field with key `k`. -/
def hasKey (b : RawBlock) (k : String) : Bool :=
  (findVal b k).isSome

/-- Remove the first pair with key `k`, keeping every other pair in order. -/
def eraseKeyFirst (b : RawBlock) (k : String) : RawBlock :=
  match b with
  | [] => []
  | p :: rest => if p.1 = k then rest else p :: eraseKeyFirst rest k

/-- Modelled from the spec: `Codec.decode` of `backend/stats/ami_manager.py`, which is
not included under `src/`.  Spec §4.2: presence of a `Response` field → ActionResponse
whose correlating identifier is taken from the `ActionID` field; presence of an `Event`
field → Event named by that field's value, the remaining key–value pairs becoming the
Event's fields with duplicate keys preserved as an ordered list; neither field →
DecodeError. -/
def decode (b : RawBlock) : Except DecodeError Message :=
  if hasKey b "Response" then
    .ok (.response
      { actionId := (findVal b "ActionID").getD ""
      , status := if findVal b "Response" = some "Success" then .success else .error
      , fields := b })
  else if hasKey b "Event" then
    .ok (.event
      { name := (findVal b "Event").getD ""
      , fields := eraseKeyFirst b "Event" })
  else
    .error .noDiscriminator

/-- Render one `Key: Value` wire line. -/
def renderLine (k v : String) : String := k ++ ": " ++ v

/-- A value may not span lines on the wire (spec §4.2). -/
def lineSafe (v : String) : Bool :=
  !(v.data.contains '\r') && !(v.data.contains '\n')

/-- Modelled from the spec: `Codec.encode` of `backend/stats/ami_manager.py`, which is
not included under `src/`.  Spec §4.2: produces `Key: Value` lines — `Action`,
`ActionID`, then params in insertion order — terminated by a blank line (the `\r\n`
joining is left implicit at line granularity), failing with EncodeError if a value
contains a line break. -/
def encode (actionName actionId : String) (params : List (String × String)) :
    Except EncodeError (List String) :=
  if (actionName :: actionId :: params.map (fun p => p.2)).all lineSafe then
    .ok (renderLine "Action" actionName :: renderLine "ActionID" actionId ::
      params.map (fun p => renderLine p.1 p.2) ++ [""])
  else
    .error .valueHasLineBreak

/-- Split a wire line at the first `": "` separator. -/
def splitKV : List Char → Option (List Char × List Char)
  | [] => none
  | c :: rest =>
    if c = ':' ∧ rest.head? = some ' ' then some ([], rest.tail)
    else (splitKV rest).map (fun kv => (c :: kv.1, kv.2))

/-- Parse one `Key: Value` line (spec §4.1 framing rule). -/
def parseLine (s : String) : Option (String × String) :=
  (splitKV s.data).map (fun kv => (String.mk kv.1, String.mk kv.2))

/-- Modelled from the spec: the `Connection.readBlock` framing rule (spec §4.1) of the
missing backend module: a block is a run of non-empty `Key: Value` lines ending at the
first blank line; a malformed line fails the block. -/
def frameBlock : List String → Option RawBlock
  | [] => none
  | l :: rest =>
    if l = "" then some []
    else (parseLine l).bind (fun kv => (frameBlock rest).map (fun b => kv :: b))

/-- Modelled from the spec: the peer's synthetic `Response: Success` block for an encoded
request echoes back the `ActionID` the codec stamped on it (spec §4.2, §8 round-trip). -/
def syntheticResponseBlock (req : RawBlock) : RawBlock :=
  [("Response", "Success"), ("ActionID", (findVal req "ActionID").getD "")]

/-! ## Session (spec §4.3, §5) -/

/-- Session lifecycle states (spec §3). -/
inductive SessionState
  | disconnected
  | connecting
  | authenticating
  | ready
  | disconnecting
deriving DecidableEq, Repr

/-- A registered pending action: unique id, request payload, deadline (spec §3). -/
structure PendingAction where
  actionId : String
  request : String × List (String × String)
  deadline : Nat
deriving DecidableEq, Repr

/-- How a submitted action's future ends up resolved. -/
inductive ActionOutcome
  | resolved (r : ActionResponse)
  | timedOut
  | connectionLost
deriving DecidableEq, Repr

/-- Fast-fail result of `submitAction` outside `Ready` (spec §5, §7). -/
inductive SubmitError
  | notReady
deriving DecidableEq, Repr

/-- Modelled from the spec: the Session of `backend/stats/ami_manager.py` (not under
`src/`): lifecycle state, pending-action table, fresh-id counter, a record of how each
action's future was resolved, a counter of dropped unmatched responses, the reconnect
flag, the non-retryable auth-failure flag, and the serialized writes issued to the
Connection (spec §4.3, §5, §7). -/
structure Session where
  state : SessionState
  pending : List PendingAction
  nextId : Nat
  outcomes : List (String × ActionOutcome)
  anomalies : Nat
  reconnectScheduled : Bool
  authFailed : Bool
  writes : List (String × String × List (String × String))
deriving DecidableEq, Repr

/-- Modelled from the spec: one demux step of the Session read loop (spec §4.3): a
decoded ActionResponse resolves the Pending Action with the matching actionId (removing
it and recording the resolution); an unmatched response is dropped with a logged anomaly;
a decoded Event never touches the pending table and is forwarded to the Event Bus while
`Ready`.  Returns the updated session and the event to forward, if any. -/
def handleMessage (s : Session) (m : Message) : Session × Option AMIEvent :=
  match m with
  | .event e => (s, if s.state = .ready then some e else none)
  | .response r =>
    if s.pending.any (fun p => p.actionId = r.actionId) then
      ({ s with
          pending := s.pending.filter (fun p => p.actionId ≠ r.actionId)
        , outcomes := s.outcomes ++ [(r.actionId, .resolved r)] }, none)
    else
      ({ s with anomalies := s.anomalies + 1 }, none)

/-- Modelled from the spec: unexpected stream termination (spec §4.3, §5): the Session
transitions to `Disconnected`, every still-pending action fails with `ConnectionLost`,
and a reconnect attempt is scheduled unless the Session was being stopped. -/
def onStreamTerminated (s : Session) : Session :=
  { s with
      state := .disconnected
    , pending := []
    , outcomes := s.outcomes ++ s.pending.map (fun p => (p.actionId, .connectionLost))
    , reconnectScheduled := s.state ≠ .disconnecting }

/-- Modelled from the spec: `Session.submitAction` (spec §4.3, §5): only callable in
`Ready` — otherwise it fails fast with `NotReady`, queueing and transmitting nothing; in
`Ready` it generates a fresh unique actionId, registers a Pending Action with the
deadline, and writes the serialized request on the Connection. -/
def submitAction (s : Session) (name : String) (params : List (String × String))
    (timeoutMs now : Nat) : Session × Except SubmitError String :=
  if s.state = .ready then
    ({ s with
        nextId := s.nextId + 1
      , pending := s.pending ++
          [{ actionId := "qs-" ++ toString s.nextId
           , request := (name, params)
           , deadline := now + timeoutMs }]
      , writes := s.writes ++ [(name, "qs-" ++ toString s.nextId, params)] },
     .ok ("qs-" ++ toString s.nextId))
  else
    (s, .error .notReady)

/-- Modelled from the spec: the timeout sweep (spec §4.3): when an action's deadline
elapses its Pending Action is removed and a `Timeout` diagnostic is recorded; a late
response for it is then dropped as unmatched. -/
def expireTimeouts (s : Session) (now : Nat) : Session :=
  { s with
      pending := s.pending.filter (fun p => now < p.deadline)
    , outcomes := s.outcomes ++
        (s.pending.filter (fun p => p.deadline ≤ now)).map
          (fun p => (p.actionId, .timedOut)) }

/-- Modelled from the spec: the login handshake outcome (spec §4.3, §7): while
`Authenticating`, a `Success` response moves the Session to `Ready`; anything else moves
it to `Disconnected` with the non-retryable `AuthError` flag set. -/
def handleLoginResponse (s : Session) (r : ActionResponse) : Session :=
  if s.state = .authenticating then
    if r.status = .success then { s with state := .ready }
    else { s with state := .disconnected, authFailed := true }
  else s

/-! ## Event Bus subscriber backlog (spec §4.4) -/

/-- Modelled from the spec: a Subscriber (spec §3): id, event-name allow-list (`none` =
"all"), a bounded backlog of queued events (oldest first), its capacity, and the drop
counter. -/
structure Subscriber where
  id : Nat
  allowList : Option (List String)
  backlog : List AMIEvent
  capacity : Nat
  drops : Nat
deriving DecidableEq, Repr

/-- Modelled from the spec: enqueueing one published event into a Subscriber's bounded
backlog (spec §4.4): if the backlog is full the oldest queued event is dropped and the
drop counter increments; enqueueing never blocks the publisher and never reorders the
remaining entries. -/
def enqueueEvent (sub : Subscriber) (e : AMIEvent) : Subscriber :=
  if sub.backlog.length < sub.capacity then
    { sub with backlog := sub.backlog ++ [e] }
  else
    { sub with backlog := sub.backlog.tail ++ [e], drops := sub.drops + 1 }

/-- Publish a sequence of events to one Subscriber, in order. -/
def publishAll (sub : Subscriber) (es : List AMIEvent) : Subscriber :=
  es.foldl enqueueEvent sub

/-! ## Command intents (spec §6; `src/frontend/src/views/AMIControlView.jsx`) -/

/-- The command intents consumed from the HTTP layer (spec §6). -/
inductive CommandIntent
  | pauseMember (queue iface : String) (paused : Bool) (reason : Option String)
  | removeMember (queue iface : String)
  | hangup (channel : String)
  | originate (channel exten context : String) (callerId : Option String)
      (timeoutMs : Option Nat)
  | queueStatus
  | channelList
  | ping
deriving DecidableEq, Repr

/-- HTTP method of a gateway call. -/
inductive HttpMethod
  | get
  | post
deriving DecidableEq, Repr

/-- One request issued against the Action Gateway's HTTP surface. -/
structure GatewayCall where
  method : HttpMethod
  endpoint : String
  params : List (String × String)
deriving DecidableEq, Repr

/-- The gateway calls issued for one command intent.  Endpoints and parameters follow
the handlers of `src/frontend/src/views/AMIControlView.jsx` (`handlePauseMember` →
`/ami/queue/pause/`, `handleRemoveMember` → `/ami/queue/remove/`, `handleHangup` →
`/ami/hangup/`, `handleOriginate` → `/ami/originate/`, `loadQueues` →
`/ami/queue/status/`, `loadChannels` → `/ami/channels/`).  `ping` is modelled from the
spec: its backend endpoint `/api/ami/ping/` lives in `backend/stats/ami_views.py`,
which is not under `src/`. -/
def gatewayCalls : CommandIntent → List GatewayCall
  | .pauseMember q i paused reason =>
      [{ method := .post
       , endpoint := "/ami/queue/pause/"
       , params :=
          [("queue", q), ("interface", i),
           ("paused", if paused then "true" else "false")] ++
            (match reason with | some r => [("reason", r)] | none => []) }]
  | .removeMember q i =>
      [{ method := .post
       , endpoint := "/ami/queue/remove/"
       , params := [("queue", q), ("interface", i)] }]
  | .hangup ch =>
      [{ method := .post, endpoint := "/ami/hangup/", params := [("channel", ch)] }]
  | .originate ch ext ctx cid tmo =>
      [{ method := .post
       , endpoint := "/ami/originate/"
       , params :=
          [("channel", ch), ("exten", ext), ("context", ctx)] ++
            (match cid with | some c => [("callerid", c)] | none => []) ++
            (match tmo with | some t => [("timeout", toString t)] | none => []) }]
  | .queueStatus =>
      [{ method := .get, endpoint := "/ami/queue/status/", params := [] }]
  | .channelList =>
      [{ method := .get, endpoint := "/ami/channels/", params := [] }]
  | .ping =>
      [{ method := .get, endpoint := "/ami/ping/", params := [] }]

/-- Constructor tag of an intent, used to state that distinct intents hit distinct
endpoints. -/
def intentTag : CommandIntent → Nat
  | .pauseMember _ _ _ _ => 0
  | .removeMember _ _ => 1
  | .hangup _ => 2
  | .originate _ _ _ _ _ => 3
  | .queueStatus => 4
  | .channelList => 5
  | .ping => 6

/-- The endpoint an intent is routed to (endpoint of its single gateway call). -/
def intentEndpoint (i : CommandIntent) : String :=
  ((gatewayCalls i).map (fun c => c.endpoint)).headI

/-- Result surfaced to the initiating caller by the AMIControlView handlers: the
response payload on success, the propagated error message on failure. -/
inductive IntentResult
  | ok (payload : List (String × String))
  | failed (msg : String)
deriving DecidableEq, Repr

/-- The handlers' `try`/`catch` translation of a request outcome
(`src/frontend/src/views/AMIControlView.jsx` lines 123–165): a resolved request yields
its payload; a rejected one propagates `err.message`. -/
def intentOutcome : Except String (List (String × String)) → IntentResult
  | .ok p => .ok p
  | .error e => .failed e

/-! ## AMIControlView WebSocket handlers (`src/frontend/src/views/AMIControlView.jsx`) -/

/-- One entry of the live-event history kept by the view (lines 45–49): timestamp,
event type, payload. -/
structure WsEventEntry where
  timestamp : String
  etype : String
  payload : String
deriving DecidableEq, Repr

/-- A WebSocket frame after `JSON.parse` (lines 42–43): either the parse threw (caught
by the handler) or an object with optional `type` and `event` fields and a payload. -/
inductive WsParsed
  | malformed
  | msg (mtype : Option String) (event : Option String) (payload : String)
deriving DecidableEq, Repr

/-- JavaScript truthiness of an optional string field (the empty string is falsy). -/
def truthyStr : Option String → Bool
  | none => false
  | some s => s ≠ ""

/-- The handler's acceptance test `data.type === "ami_event" || data.event` (line 44). -/
def wsAccepted (mtype event : Option String) : Bool :=
  mtype = some "ami_event" || truthyStr event

/-- The `websocket.onmessage` handler (lines 41–62): a caught parse failure leaves the
history unchanged; an accepted message is prepended as a new entry (`data.event ||
data.type` as its type) and the history is truncated with `.slice(0, 50)`. -/
def onWsMessage (events : List WsEventEntry) (m : WsParsed) (ts : String) :
    List WsEventEntry :=
  match m with
  | .malformed => events
  | .msg mtype event payload =>
    if wsAccepted mtype event then
      ({ timestamp := ts
       , etype := (if truthyStr event then event else mtype).getD ""
       , payload := payload } :: events).take 50
    else events

/-- Run the `onmessage` handler over a sequence of timestamped incoming frames,
starting from a given history. -/
def runWsMessages (events : List WsEventEntry) (ms : List (WsParsed × String)) :
    List WsEventEntry :=
  ms.foldl (fun evs m => onWsMessage evs m.1 m.2) events

/-- WebSocket lifecycle events seen by `connectWebSocket` (lines 32–77). -/
inductive WsLifecycleEvent
  | opened
  | messaged
  | closed
deriving DecidableEq, Repr

/-- Connection-lifecycle state of the view: the `wsConnected` flag, how many closes
(failed connections) have occurred, and the reconnect timers scheduled so far with
their delays. -/
structure WsConnState where
  wsConnected : Bool
  closes : Nat
  scheduledDelaysMs : List Nat
deriving DecidableEq, Repr

/-- The lifecycle handlers of `connectWebSocket` (lines 35–77): `onopen` sets the
connected flag; `onclose` clears it and schedules exactly one retry via
`setTimeout(connectWebSocket, 5000)` — a constant 5000 ms delay with no attempt
counter and no retry limit. -/
def wsStep (st : WsConnState) : WsLifecycleEvent → WsConnState
  | .opened => { st with wsConnected := true }
  | .messaged => st
  | .closed =>
      { st with
          wsConnected := false
        , closes := st.closes + 1
        , scheduledDelaysMs := st.scheduledDelaysMs ++ [5000] }

/-- Run the view's connection lifecycle from mount (`wsConnected = false`, no timers). -/
def wsRun (trace : List WsLifecycleEvent) : WsConnState :=
  trace.foldl wsStep { wsConnected := false, closes := 0, scheduledDelaysMs := [] }

/-! ## Concrete sample data used by witnesses -/

/-- A sample pending action. -/
def samplePending0 : PendingAction :=
  { actionId := "qs-0", request := ("Ping", []), deadline := 100 }

/-- A second sample pending action. -/
def samplePending1 : PendingAction :=
  { actionId := "qs-1", request := ("QueueStatus", []), deadline := 150 }

/-- A third sample pending action. -/
def samplePending2 : PendingAction :=
  { actionId := "qs-2", request := ("CoreShowChannels", []), deadline := 200 }

/-- A sample `Ready` session with three pending actions. -/
def sampleSession : Session :=
  { state := .ready
  , pending := [samplePending0, samplePending1, samplePending2]
  , nextId := 3
  , outcomes := []
  , anomalies := 0
  , reconnectScheduled := false
  , authFailed := false
  , writes := [] }

/-- A sample session awaiting its login response. -/
def sampleAuthSession : Session :=
  { state := .authenticating
  , pending := []
  , nextId := 0
  , outcomes := []
  , anomalies := 0
  , reconnectScheduled := false
  , authFailed := false
  , writes := [] }

/-- A sample event with just a name. -/
def sampleEvent (n : String) : AMIEvent := { name := n, fields := [] }

/-- A sample all-events subscriber with capacity 2 and an empty backlog. -/
def sampleSubscriber : Subscriber :=
  { id := 0, allowList := none, backlog := [], capacity := 2, drops := 0 }

/-- A sample successful response correlated to `samplePending1`. -/
def sampleResponse1 : ActionResponse :=
  { actionId := "qs-1", status := .success, fields := [] }

/-- The sample session after the sample response has been demultiplexed. -/
def sampleSessionAfter : Session := (handleMessage sampleSession (.response sampleResponse1)).1

end AMI

namespace AMI

/-! ## Codec lemmas -/

/-- Splitting recovers a key without `':'` and the value verbatim. -/
lemma splitKV_append (k v : List Char) (hk : ':' ∉ k) :
    splitKV (k ++ ':' :: ' ' :: v) = some (k, v) := by
  induction k with
  | nil => simp [splitKV]
  | cons c cs ih =>
    have hc : c ≠ ':' := by
      intro h
      subst h
      exact hk (List.mem_cons_self _ _)
    have hcs : ':' ∉ cs := fun h => hk (List.mem_cons_of_mem _ h)
    simp only [List.cons_append, splitKV, List.append_eq]
    rw [if_neg (fun h => hc h.1), ih hcs]
    rfl

/-- A line that contains a `": "` separator always splits. -/
lemma splitKV_append_isSome (xs ys : List Char) :
    (splitKV (xs ++ ':' :: ' ' :: ys)).isSome = true := by
  induction xs with
  | nil => simp [splitKV]
  | cons c cs ih =>
    simp only [List.cons_append, splitKV, List.append_eq]
    by_cases h : c = ':' ∧ (cs ++ ':' :: ' ' :: ys).head? = some ' '
    · rw [if_pos h]
      rfl
    · rw [if_neg h, Option.isSome_map']
      exact ih

/-- Character content of a rendered wire line. -/
lemma renderLine_data (k v : String) :
    (renderLine k v).data = k.data ++ ':' :: ' ' :: v.data := by
  have hsep : (": " : String).data = [':', ' '] := rfl
  simp [renderLine, String.data_append, hsep]

/-- A rendered wire line is never the blank terminator line. -/
lemma renderLine_ne_empty (k v : String) : renderLine k v ≠ "" := by
  intro h
  have hd := congrArg String.data h
  rw [renderLine_data] at hd
  have hnil : ("" : String).data = [] := rfl
  rw [hnil] at hd
  exact List.append_ne_nil_of_right_ne_nil _ (by simp) hd

/-- Parsing a rendered line with a colon-free key recovers it exactly. -/
lemma parseLine_render (k v : String) (hk : ':' ∉ k.data) :
    parseLine (renderLine k v) = some (k, v) := by
  unfold parseLine
  rw [renderLine_data, splitKV_append _ _ hk]
  rfl

/-- Every rendered line parses. -/
lemma parseLine_render_isSome (k v : String) :
    (parseLine (renderLine k v)).isSome = true := by
  unfold parseLine
  rw [renderLine_data, Option.isSome_map']
  exact splitKV_append_isSome k.data v.data

/-- Framing step on a non-blank line that parses. -/
lemma frameBlock_cons (l : String) (rest : List String) (kv : String × String)
    (b : RawBlock) (hl : l ≠ "") (hp : parseLine l = some kv)
    (hr : frameBlock rest = some b) :
    frameBlock (l :: rest) = some (kv :: b) := by
  simp only [frameBlock]
  rw [if_neg hl, hp, hr]
  rfl

/-- The rendered parameter lines of an encoded action frame into some block. -/
lemma frame_params (ps : List (String × String)) :
    ∃ b, frameBlock (ps.map (fun p => renderLine p.1 p.2) ++ [""]) = some b := by
  induction ps with
  | nil => exact ⟨[], rfl⟩
  | cons p ps ih =>
    obtain ⟨b, hb⟩ := ih
    obtain ⟨kv, hkv⟩ := Option.isSome_iff_exists.mp (parseLine_render_isSome p.1 p.2)
    exact ⟨kv :: b, frameBlock_cons _ _ _ _ (renderLine_ne_empty p.1 p.2) hkv hb⟩

/-- C7: for every action name, actionId, and parameter map accepted by `Codec.encode`,
framing `encode`'s output and running `Codec.decode` on the corresponding synthetic
response block reconstructs an ActionResponse carrying the same actionId. -/
theorem encode_decode_roundtrip (name actionId : String)
    (params : List (String × String)) (lines : List String)
    (h : encode name actionId params = .ok lines) :
    ∃ req : RawBlock, frameBlock lines = some req ∧
      ∃ r : ActionResponse,
        decode (syntheticResponseBlock req) = .ok (.response r) ∧
        r.actionId = actionId := by
  unfold encode at h
  split at h
  · obtain ⟨b, hb⟩ := frame_params params
    cases h
    have h2 : frameBlock (renderLine "ActionID" actionId ::
        (params.map (fun p => renderLine p.1 p.2) ++ [""])) =
        some (("ActionID", actionId) :: b) :=
      frameBlock_cons _ _ _ _ (renderLine_ne_empty _ _)
        (parseLine_render _ _ (by decide)) hb
    have h1 : frameBlock (renderLine "Action" name :: renderLine "ActionID" actionId ::
        (params.map (fun p => renderLine p.1 p.2) ++ [""])) =
        some (("Action", name) :: ("ActionID", actionId) :: b) :=
      frameBlock_cons _ _ _ _ (renderLine_ne_empty _ _)
        (parseLine_render _ _ (by decide)) h2
    exact ⟨("Action", name) :: ("ActionID", actionId) :: b, h1,
      ⟨{ actionId := actionId, status := .success
       , fields := [("Response", "Success"), ("ActionID", actionId)] }, rfl, rfl⟩⟩
  · exact Except.noConfusion h

/-- Witness: the round trip at a concrete `QueueStatus` request. -/
theorem encode_decode_roundtrip_witness :
    encode "QueueStatus" "qs-7" [("Queue", "support")] =
      .ok ["Action: QueueStatus", "ActionID: qs-7", "Queue: support", ""] ∧
    ∃ req : RawBlock,
      frameBlock ["Action: QueueStatus", "ActionID: qs-7", "Queue: support", ""] =
        some req ∧
      ∃ r : ActionResponse,
        decode (syntheticResponseBlock req) = .ok (.response r) ∧
        r.actionId = "qs-7" :=
  ⟨rfl, encode_decode_roundtrip "QueueStatus" "qs-7" [("Queue", "support")] _ rfl⟩

/-- Pairs with a key other than the erased one survive `eraseKeyFirst` in order. -/
lemma filter_eraseKeyFirst (b : RawBlock) (k k' : String) (h : k' ≠ k) :
    (eraseKeyFirst b k).filter (fun p => p.1 = k') = b.filter (fun p => p.1 = k') := by
  induction b with
  | nil => rfl
  | cons p rest ih =>
    by_cases hp : p.1 = k
    · have hk' : ¬ p.1 = k' := fun hc => h (hc ▸ hp)
      simp only [eraseKeyFirst, if_pos hp, List.filter_cons]
      simp [hk']
    · simp only [eraseKeyFirst, if_neg hp, List.filter_cons]
      by_cases hp' : p.1 = k'
      · simp [hp', ih]
      · simp [hp', ih]

/-- C6: `Codec.decode` classifies a raw block by discriminator: a `Response` field
yields an ActionResponse whose correlating identifier is taken from the `ActionID`
field; otherwise an `Event` field yields an Event named by that field's value, whose
remaining key–value pairs become the Event's fields with duplicate keys preserved as an
ordered list rather than one value overwriting another. -/
theorem decode_classification (b : RawBlock) :
    (hasKey b "Response" = true →
      ∃ r : ActionResponse, decode b = .ok (.response r) ∧
        r.actionId = (findVal b "ActionID").getD "") ∧
    (hasKey b "Response" = false → hasKey b "Event" = true →
      ∃ e : AMIEvent, decode b = .ok (.event e) ∧
        findVal b "Event" = some e.name ∧
        ∀ k : String, k ≠ "Event" →
          e.fields.filter (fun p => p.1 = k) = b.filter (fun p => p.1 = k)) := by
  constructor
  · intro h
    refine ⟨{ actionId := (findVal b "ActionID").getD ""
            , status := if findVal b "Response" = some "Success" then .success else .error
            , fields := b }, ?_, rfl⟩
    unfold decode
    rw [if_pos h]
  · intro h1 h2
    refine ⟨{ name := (findVal b "Event").getD "", fields := eraseKeyFirst b "Event" },
      ?_, ?_, ?_⟩
    · unfold decode
      rw [if_neg (by simp [h1]), if_pos h2]
    · have h2' : (findVal b "Event").isSome = true := h2
      obtain ⟨v, hv⟩ := Option.isSome_iff_exists.mp h2'
      rw [hv]
      rfl
    · intro k hk
      exact filter_eraseKeyFirst b "Event" k hk

/-- Witness: decoding a concrete queue-member event block with a duplicated
`Variable` key. -/
theorem decode_classification_witness :
    ∃ e : AMIEvent,
      decode [("Event", "QueueMember"), ("Queue", "support"),
              ("Variable", "a=1"), ("Variable", "b=2")] = .ok (.event e) ∧
      findVal [("Event", "QueueMember"), ("Queue", "support"),
              ("Variable", "a=1"), ("Variable", "b=2")] "Event" = some e.name ∧
      ∀ k : String, k ≠ "Event" →
        e.fields.filter (fun p => p.1 = k) =
          [("Event", "QueueMember"), ("Queue", "support"),
           ("Variable", "a=1"), ("Variable", "b=2")].filter (fun p => p.1 = k) :=
  (decode_classification _).2 rfl rfl

/-! ## Session lemmas -/

/-- Distinct mapped ids make `actionId` injective on the pending table. -/
lemma pending_id_injective {l : List PendingAction}
    (hnd : (l.map (fun p => p.actionId)).Nodup) {p q : PendingAction}
    (hp : p ∈ l) (hq : q ∈ l) (h : p.actionId = q.actionId) : p = q :=
  List.inj_on_of_nodup_map hnd hp hq h

/-- Removing the entries bearing a present id from a duplicate-free pending table
removes exactly one entry. -/
lemma filter_ne_actionId_length (l : List PendingAction) (a : String)
    (hnd : (l.map (fun p => p.actionId)).Nodup)
    (hmem : ∃ p ∈ l, p.actionId = a) :
    (l.filter (fun p => p.actionId ≠ a)).length + 1 = l.length := by
  induction l with
  | nil => simp at hmem
  | cons x xs ih =>
    rw [List.map_cons, List.nodup_cons] at hnd
    by_cases hx : x.actionId = a
    · have hxs : ∀ q ∈ xs, q.actionId ≠ a := by
        intro q hq hqa
        exact hnd.1 (by rw [hx, ← hqa]; exact List.mem_map_of_mem _ hq)
      rw [List.filter_cons_of_neg (by simp [hx]),
        List.filter_eq_self.mpr (by intro q hq; simpa using hxs q hq)]
      rfl
    · rw [List.filter_cons_of_pos (by simpa using hx)]
      have hmem' : ∃ p ∈ xs, p.actionId = a := by
        rcases hmem with ⟨q, hq, hqa⟩
        rcases List.mem_cons.mp hq with rfl | hq'
        · exact absurd hqa hx
        · exact ⟨q, hq', hqa⟩
      have := ih hnd.2 hmem'
      simp only [List.length_cons]
      omega

/-- `handleMessage` on a response whose id is pending: the matching entry is resolved. -/
lemma handleMessage_matched (s : Session) (r : ActionResponse)
    (hm : ∃ p ∈ s.pending, p.actionId = r.actionId) :
    handleMessage s (.response r) =
      ({ s with
          pending := s.pending.filter (fun p => p.actionId ≠ r.actionId)
        , outcomes := s.outcomes ++ [(r.actionId, .resolved r)] }, none) := by
  have hany : s.pending.any (fun p => p.actionId = r.actionId) = true := by
    simp only [List.any_eq_true, decide_eq_true_eq]
    exact hm
  simp only [handleMessage]
  rw [if_pos hany]

/-- `handleMessage` on a response matching no pending id: dropped with an anomaly. -/
lemma handleMessage_unmatched (s : Session) (r : ActionResponse)
    (hm : ∀ p ∈ s.pending, p.actionId ≠ r.actionId) :
    handleMessage s (.response r) = ({ s with anomalies := s.anomalies + 1 }, none) := by
  have hany : s.pending.any (fun p => p.actionId = r.actionId) = false := by
    simp only [List.any_eq_false, decide_eq_true_eq]
    exact hm
  simp only [handleMessage]
  rw [if_neg (by simp [hany])]

/-- C1: in the Session read loop, Events never resolve any Pending Action; a decoded
ActionResponse whose actionId is pending resolves exactly that one action — the table
shrinks by exactly one, the matching entry is gone, every other entry survives, and the
resolution is recorded; an ActionResponse matching no Pending Action is dropped with a
logged anomaly (only the anomaly counter changes — no crash). -/
theorem readLoop_demux (s : Session)
    (hnd : (s.pending.map (fun p => p.actionId)).Nodup) :
    (∀ e : AMIEvent,
        (handleMessage s (.event e)).1.pending = s.pending ∧
        (handleMessage s (.event e)).1.outcomes = s.outcomes ∧
        (handleMessage s (.event e)).1.anomalies = s.anomalies) ∧
    (∀ r : ActionResponse, (∃ p ∈ s.pending, p.actionId = r.actionId) →
        (handleMessage s (.response r)).1.pending.length + 1 = s.pending.length ∧
        (∀ p ∈ (handleMessage s (.response r)).1.pending, p.actionId ≠ r.actionId) ∧
        (∀ p ∈ s.pending, p.actionId ≠ r.actionId →
            p ∈ (handleMessage s (.response r)).1.pending) ∧
        (handleMessage s (.response r)).1.outcomes =
          s.outcomes ++ [(r.actionId, .resolved r)]) ∧
    (∀ r : ActionResponse, (∀ p ∈ s.pending, p.actionId ≠ r.actionId) →
        (handleMessage s (.response r)).1 = { s with anomalies := s.anomalies + 1 }) := by
  refine ⟨fun e => ⟨rfl, rfl, rfl⟩, ?_, ?_⟩
  · intro r hm
    rw [handleMessage_matched s r hm]
    refine ⟨filter_ne_actionId_length s.pending r.actionId hnd hm, ?_, ?_, rfl⟩
    · intro p hp
      have := List.mem_filter.mp hp
      simpa using this.2
    · intro p hp hne
      exact List.mem_filter.mpr ⟨hp, by simpa using hne⟩
  · intro r hm
    rw [handleMessage_unmatched s r hm]

/-- Witness: the demux step on the sample session — a matched response resolves
exactly one of the three pending actions. -/
theorem readLoop_demux_witness :
    sampleSessionAfter.pending.length + 1 = sampleSession.pending.length ∧
    (∀ p ∈ sampleSessionAfter.pending, p.actionId ≠ sampleResponse1.actionId) ∧
    (∀ p ∈ sampleSession.pending, p.actionId ≠ sampleResponse1.actionId →
        p ∈ sampleSessionAfter.pending) ∧
    sampleSessionAfter.outcomes =
      sampleSession.outcomes ++ [(sampleResponse1.actionId, .resolved sampleResponse1)] :=
  (readLoop_demux sampleSession (by decide)).2.1 sampleResponse1
    ⟨samplePending1, by decide, by decide⟩

/-- C2: unexpected stream termination while `Ready` moves the Session to
`Disconnected`, fails every still-pending action with `ConnectionLost` (the table is
emptied and each pending id gets a `ConnectionLost` resolution), and schedules a
reconnect attempt; once any session is `Ready` again, `submitAction` succeeds. -/
theorem streamLoss_failsAllPending (s : Session) (h : s.state = .ready) :
    (onStreamTerminated s).state = .disconnected ∧
    (onStreamTerminated s).pending = [] ∧
    (onStreamTerminated s).outcomes =
      s.outcomes ++ s.pending.map (fun p => (p.actionId, .connectionLost)) ∧
    (∀ p ∈ s.pending,
        (p.actionId, ActionOutcome.connectionLost) ∈ (onStreamTerminated s).outcomes) ∧
    (onStreamTerminated s).reconnectScheduled = true ∧
    (∀ (s' : Session) (name : String) (params : List (String × String)) (tmo now : Nat),
        s'.state = .ready →
        (submitAction s' name params tmo now).2 = .ok ("qs-" ++ toString s'.nextId)) := by
  refine ⟨rfl, rfl, rfl, ?_, ?_, ?_⟩
  · intro p hp
    exact List.mem_append_right _
      (List.mem_map_of_mem (fun p => (p.actionId, ActionOutcome.connectionLost)) hp)
  · simp only [onStreamTerminated, h]
    decide
  · intro s' name params tmo now h'
    simp only [submitAction]
    rw [if_pos h']

/-- Witness: stream loss on the sample `Ready` session with three pending actions. -/
theorem streamLoss_failsAllPending_witness :
    (onStreamTerminated sampleSession).state = .disconnected ∧
    (onStreamTerminated sampleSession).pending = [] ∧
    (onStreamTerminated sampleSession).outcomes =
      sampleSession.outcomes ++
        sampleSession.pending.map (fun p => (p.actionId, .connectionLost)) ∧
    (∀ p ∈ sampleSession.pending,
        (p.actionId, ActionOutcome.connectionLost) ∈
          (onStreamTerminated sampleSession).outcomes) ∧
    (onStreamTerminated sampleSession).reconnectScheduled = true ∧
    (∀ (s' : Session) (name : String) (params : List (String × String)) (tmo now : Nat),
        s'.state = .ready →
        (submitAction s' name params tmo now).2 = .ok ("qs-" ++ toString s'.nextId)) :=
  streamLoss_failsAllPending sampleSession rfl

/-- C3: in every state other than `Ready` — including `Disconnected` reached through a
rejected login — `submitAction` fails fast with `NotReady` and the session is left
untouched (nothing queued, nothing transmitted); an action is accepted exactly when the
Session is `Ready`. -/
theorem submitAction_failsFast (s : Session) (name : String)
    (params : List (String × String)) (tmo now : Nat) (h : s.state ≠ .ready) :
    (submitAction s name params tmo now).2 = .error .notReady ∧
    (submitAction s name params tmo now).1 = s ∧
    (∀ s' : Session,
        (∃ id, (submitAction s' name params tmo now).2 = .ok id) ↔ s'.state = .ready) ∧
    (∀ (s' : Session) (r : ActionResponse),
        s'.state = .authenticating → r.status = .error →
        (handleLoginResponse s' r).state = .disconnected ∧
        (handleLoginResponse s' r).authFailed = true ∧
        (submitAction (handleLoginResponse s' r) name params tmo now).2 =
          .error .notReady) := by
  have hsub : ∀ s'' : Session, s''.state ≠ .ready →
      submitAction s'' name params tmo now = (s'', .error .notReady) := by
    intro s'' h''
    simp only [submitAction]
    rw [if_neg h'']
  refine ⟨by rw [hsub s h], by rw [hsub s h], ?_, ?_⟩
  · intro s'
    constructor
    · intro ⟨id, hid⟩
      by_contra h'
      rw [hsub s' h'] at hid
      exact Except.noConfusion hid
    · intro h'
      refine ⟨"qs-" ++ toString s'.nextId, ?_⟩
      simp only [submitAction]
      rw [if_pos h']
  · intro s' r h1 h2
    have hlr : handleLoginResponse s' r =
        { s' with state := .disconnected, authFailed := true } := by
      simp only [handleLoginResponse]
      rw [if_pos h1, if_neg (by rw [h2]; exact fun hc => RespStatus.noConfusion hc)]
    rw [hlr]
    exact ⟨rfl, rfl, by rw [hsub _ (fun hc => SessionState.noConfusion hc)]⟩

/-- Witness: a rejected login on the sample authenticating session, then a refused
submit. -/
theorem submitAction_failsFast_witness :
    (submitAction (handleLoginResponse sampleAuthSession
        { actionId := "qs-0", status := .error, fields := [] }) "Ping" [] 100 0).2 =
      .error .notReady ∧
    (handleLoginResponse sampleAuthSession
        { actionId := "qs-0", status := .error, fields := [] }).state = .disconnected :=
  by
  have h := submitAction_failsFast (handleLoginResponse sampleAuthSession
    { actionId := "qs-0", status := .error, fields := [] }) "Ping" [] 100 0 (by decide)
  have h2 := h.2.2.2 sampleAuthSession
    { actionId := "qs-0", status := .error, fields := [] } rfl rfl
  exact ⟨h2.2.2, h2.1⟩

/-- C4: when an action's deadline elapses with no response, the timeout sweep removes
exactly the expired Pending Actions (an entry survives iff its deadline is still in the
future) and records a `Timeout` diagnostic; a response bearing that actionId arriving
afterwards is dropped as unmatched — the table, the recorded resolutions, and in
particular the already-recorded `Timeout` are untouched, only the anomaly counter
moves. -/
theorem timeout_expires_then_drops_late (s : Session) (now : Nat) (p : PendingAction)
    (hnd : (s.pending.map (fun q => q.actionId)).Nodup)
    (hp : p ∈ s.pending) (hd : p.deadline ≤ now) :
    p ∉ (expireTimeouts s now).pending ∧
    (p.actionId, ActionOutcome.timedOut) ∈ (expireTimeouts s now).outcomes ∧
    (∀ q ∈ s.pending, (q ∈ (expireTimeouts s now).pending ↔ now < q.deadline)) ∧
    (∀ r : ActionResponse, r.actionId = p.actionId →
        (handleMessage (expireTimeouts s now) (.response r)).1 =
          { expireTimeouts s now with
              anomalies := (expireTimeouts s now).anomalies + 1 }) := by
  refine ⟨?_, ?_, ?_, ?_⟩
  · intro hmem
    have := (List.mem_filter.mp hmem).2
    simp only [decide_eq_true_eq] at this
    omega
  · refine List.mem_append_right _ (List.mem_map_of_mem _ ?_)
    exact List.mem_filter.mpr ⟨hp, by simpa using hd⟩
  · intro q hq
    constructor
    · intro hmem
      have := (List.mem_filter.mp hmem).2
      simpa using this
    · intro hlt
      exact List.mem_filter.mpr ⟨hq, by simpa using hlt⟩
  · intro r hr
    have hmm : ∀ q ∈ (expireTimeouts s now).pending, q.actionId ≠ r.actionId := by
      intro q hq hqr
      have hq' := List.mem_filter.mp hq
      have hlt : now < q.deadline := by simpa using hq'.2
      have hqp : q = p := pending_id_injective hnd hq'.1 hp (by rw [hqr, hr])
      rw [hqp] at hlt
      omega
    rw [handleMessage_unmatched (expireTimeouts s now) r hmm]

/-- Witness: expiring the sample session's first action at time 120 and dropping its
late response. -/
theorem timeout_expires_then_drops_late_witness :
    samplePending0 ∉ (expireTimeouts sampleSession 120).pending ∧
    ("qs-0", ActionOutcome.timedOut) ∈ (expireTimeouts sampleSession 120).outcomes ∧
    (∀ q ∈ sampleSession.pending,
        (q ∈ (expireTimeouts sampleSession 120).pending ↔ 120 < q.deadline)) ∧
    (∀ r : ActionResponse, r.actionId = "qs-0" →
        (handleMessage (expireTimeouts sampleSession 120) (.response r)).1 =
          { expireTimeouts sampleSession 120 with
              anomalies := (expireTimeouts sampleSession 120).anomalies + 1 }) :=
  timeout_expires_then_drops_late sampleSession 120 samplePending0
    (by decide) (by decide) (by decide)

/-! ## Event-bus backlog lemmas -/

/-- Folding the bounded enqueue: the backlog is always the most recent
capacity-bounded suffix of everything queued, and the drop counter counts exactly the
overflow. -/
lemma publishAll_spec (c : Nat) (hc : 1 ≤ c) :
    ∀ (es : List AMIEvent) (sub : Subscriber),
      sub.capacity = c → sub.backlog.length ≤ c →
      (publishAll sub es).backlog =
          (sub.backlog ++ es).drop (sub.backlog.length + es.length - c) ∧
      (publishAll sub es).drops = sub.drops + (sub.backlog.length + es.length - c) := by
  intro es
  induction es with
  | nil =>
    intro sub hcap hlen
    have h0 : sub.backlog.length + ([] : List AMIEvent).length - c = 0 := by
      simp only [List.length_nil, Nat.add_zero]
      omega
    constructor
    · simp only [publishAll, List.foldl_nil, List.append_nil, h0, List.drop_zero]
    · simp only [publishAll, List.foldl_nil, h0, Nat.add_zero]
  | cons e es ih =>
    intro sub hcap hlen
    have hstep : publishAll sub (e :: es) = publishAll (enqueueEvent sub e) es := rfl
    by_cases hfull : sub.backlog.length < sub.capacity
    · have henq : enqueueEvent sub e = { sub with backlog := sub.backlog ++ [e] } := by
        simp only [enqueueEvent]
        rw [if_pos hfull]
      rw [hstep, henq]
      obtain ⟨hb, hd⟩ := ih { sub with backlog := sub.backlog ++ [e] } hcap
        (by
          simp only [List.length_append, List.length_singleton]
          rw [hcap] at hfull
          omega)
      refine ⟨?_, ?_⟩
      · rw [hb]
        show ((sub.backlog ++ [e]) ++ es).drop
            ((sub.backlog ++ [e]).length + es.length - c) =
          (sub.backlog ++ e :: es).drop (sub.backlog.length + (es.length + 1) - c)
        rw [List.length_append, List.length_singleton, List.append_assoc,
          List.singleton_append]
        congr 1
        omega
      · rw [hd]
        show sub.drops + ((sub.backlog ++ [e]).length + es.length - c) =
          sub.drops + (sub.backlog.length + (es.length + 1) - c)
        rw [List.length_append, List.length_singleton]
        congr 1
        omega
    · have hflen : sub.backlog.length = c := by
        rw [hcap] at hfull
        omega
      have henq : enqueueEvent sub e =
          { sub with backlog := sub.backlog.tail ++ [e], drops := sub.drops + 1 } := by
        simp only [enqueueEvent]
        rw [if_neg hfull]
      rw [hstep, henq]
      have htl : sub.backlog.tail.length = c - 1 := by
        rw [List.length_tail, hflen]
      obtain ⟨hb, hd⟩ := ih
        { sub with backlog := sub.backlog.tail ++ [e], drops := sub.drops + 1 } hcap
        (by
          simp only [List.length_append, List.length_singleton, htl]
          omega)
      obtain ⟨x, xs, hbx⟩ : ∃ x xs, sub.backlog = x :: xs := by
        cases hB : sub.backlog with
        | nil =>
          rw [hB] at hflen
          simp only [List.length_nil] at hflen
          omega
        | cons x xs => exact ⟨x, xs, rfl⟩
      have hxs : xs.length + 1 = c := by
        rw [hbx] at hflen
        simpa using hflen
      refine ⟨?_, ?_⟩
      · rw [hb, hbx]
        show ((xs ++ [e]) ++ es).drop ((xs ++ [e]).length + es.length - c) =
          (x :: (xs ++ e :: es)).drop (xs.length + 1 + (es.length + 1) - c)
        rw [List.length_append, List.length_singleton, List.append_assoc,
          List.singleton_append]
        have i1 : xs.length + 1 + es.length - c = es.length := by omega
        have i2 : xs.length + 1 + (es.length + 1) - c = es.length + 1 := by omega
        rw [i1, i2, List.drop_succ_cons]
      · rw [hd, hbx]
        show sub.drops + 1 + ((xs ++ [e]).length + es.length - c) =
          sub.drops + (xs.length + 1 + (es.length + 1) - c)
        rw [List.length_append, List.length_singleton]
        omega

/-- C5: a Subscriber whose bounded backlog has capacity N ≥ 1 and starts empty:
publishing N+1 events while it consumes none leaves events 2..N+1 in publication order
with the drop counter equal to 1; publishing at most N events reports zero drops; in
general the backlog is exactly the most recent suffix of the published sequence — the
(total) enqueue never blocks the publisher, never reorders the remaining entries, and
never produces a gap followed by a duplicate — with the drop counter equal to the
overflow. -/
theorem backlog_dropsOldest (N : Nat) (hN : 1 ≤ N) (sub : Subscriber)
    (hcap : sub.capacity = N) (hempty : sub.backlog = []) (hdrops : sub.drops = 0) :
    (∀ es : List AMIEvent, es.length = N + 1 →
        (publishAll sub es).backlog = es.tail ∧ (publishAll sub es).drops = 1) ∧
    (∀ es : List AMIEvent, es.length ≤ N →
        (publishAll sub es).backlog = es ∧ (publishAll sub es).drops = 0) ∧
    (∀ es : List AMIEvent,
        (publishAll sub es).backlog = es.drop (es.length - N) ∧
        (publishAll sub es).drops = es.length - N) := by
  have hgen : ∀ es : List AMIEvent,
      (publishAll sub es).backlog = es.drop (es.length - N) ∧
      (publishAll sub es).drops = es.length - N := by
    intro es
    obtain ⟨hb, hd⟩ := publishAll_spec N hN es sub hcap (by rw [hempty]; simp)
    simp only [hempty, hdrops, List.nil_append, List.length_nil, Nat.zero_add] at hb hd
    exact ⟨hb, hd⟩
  refine ⟨?_, ?_, hgen⟩
  · intro es hlen
    obtain ⟨hb, hd⟩ := hgen es
    rw [hlen] at hb hd
    have h1 : N + 1 - N = 1 := by omega
    exact ⟨by rw [hb, h1, List.drop_one], by rw [hd, h1]⟩
  · intro es hlen
    obtain ⟨hb, hd⟩ := hgen es
    have h0 : es.length - N = 0 := Nat.sub_eq_zero_of_le hlen
    exact ⟨by rw [hb, h0, List.drop_zero], by rw [hd, h0]⟩

/-- Witness: capacity 2, three published events — the backlog ends holding events 2
and 3 in order with exactly one drop. -/
theorem backlog_dropsOldest_witness :
    (publishAll sampleSubscriber
        [sampleEvent "E1", sampleEvent "E2", sampleEvent "E3"]).backlog =
      [sampleEvent "E2", sampleEvent "E3"] ∧
    (publishAll sampleSubscriber
        [sampleEvent "E1", sampleEvent "E2", sampleEvent "E3"]).drops = 1 := by
  have h := (backlog_dropsOldest 2 (by decide) sampleSubscriber rfl rfl rfl).1
    [sampleEvent "E1", sampleEvent "E2", sampleEvent "E3"] (by decide)
  exact ⟨h.1.trans rfl, h.2⟩

/-! ## Command-intent theorems -/

/-- C8: each command intent issues exactly one gateway call; distinct kinds of intent
are routed to distinct endpoints (the mapping is 1:1); the handlers surface success
with the result payload and propagate the error message to the initiating caller. -/
theorem intents_one_to_one :
    (∀ i : CommandIntent, (gatewayCalls i).length = 1) ∧
    (∀ i j : CommandIntent,
        intentEndpoint i = intentEndpoint j → intentTag i = intentTag j) ∧
    (∀ p : List (String × String), intentOutcome (.ok p) = .ok p) ∧
    (∀ m : String, intentOutcome (.error m) = .failed m) := by
  refine ⟨?_, ?_, fun p => rfl, fun m => rfl⟩
  · intro i
    cases i <;> rfl
  · intro i j h
    cases i <;> cases j <;> first | rfl | exact absurd h (of_decide_eq_false rfl)

/-- Witness: two hangup intents share an endpoint and a tag; one call is issued. -/
theorem intents_one_to_one_witness :
    intentTag (.hangup "SIP/100-0001") = intentTag (.hangup "SIP/100-0002") ∧
    (gatewayCalls (.hangup "SIP/100-0001")).length = 1 :=
  ⟨intents_one_to_one.2.1 (.hangup "SIP/100-0001") (.hangup "SIP/100-0002") rfl,
   intents_one_to_one.1 (.hangup "SIP/100-0001")⟩

/-! ## AMIControlView live-event history -/

/-- One `onmessage` step keeps the history within the 50-entry bound. -/
lemma onWsMessage_length_le (evs : List WsEventEntry) (m : WsParsed) (ts : String)
    (h : evs.length ≤ 50) : (onWsMessage evs m ts).length ≤ 50 := by
  cases m with
  | malformed => exact h
  | msg mtype event payload =>
    simp only [onWsMessage]
    by_cases hacc : wsAccepted mtype event = true
    · rw [if_pos hacc]
      simp only [List.length_take]
      exact Nat.min_le_left _ _
    · rw [if_neg hacc]
      exact h

/-- The folded handler never lets the history exceed 50 entries. -/
lemma runWsMessages_length_le (ms : List (WsParsed × String)) :
    ∀ evs : List WsEventEntry, evs.length ≤ 50 →
      (runWsMessages evs ms).length ≤ 50 := by
  induction ms with
  | nil => intro evs h; exact h
  | cons m ms ih =>
    intro evs h
    exact ih (onWsMessage evs m.1 m.2) (onWsMessage_length_le evs m.1 m.2 h)

/-- C9: over every sequence of incoming WebSocket frames the stored live-event history
never exceeds 50 entries; each accepted frame is prepended (newest first); once 50
entries exist each newly accepted frame evicts exactly the oldest entry; frames that
fail to parse or are not accepted leave the history untouched. -/
theorem eventHistory_bounded (ms : List (WsParsed × String)) :
    (runWsMessages [] ms).length ≤ 50 ∧
    (∀ (evs : List WsEventEntry) (mtype event : Option String) (payload ts : String),
        wsAccepted mtype event = true →
        onWsMessage evs (.msg mtype event payload) ts =
          ({ timestamp := ts
           , etype := (if truthyStr event then event else mtype).getD ""
           , payload := payload } :: evs).take 50) ∧
    (∀ (evs : List WsEventEntry) (mtype event : Option String) (payload ts : String),
        wsAccepted mtype event = true → evs.length = 50 →
        onWsMessage evs (.msg mtype event payload) ts =
          { timestamp := ts
          , etype := (if truthyStr event then event else mtype).getD ""
          , payload := payload } :: evs.dropLast) ∧
    (∀ (evs : List WsEventEntry) (ts : String), onWsMessage evs .malformed ts = evs) := by
  refine ⟨runWsMessages_length_le ms [] (by simp), ?_, ?_, fun evs ts => rfl⟩
  · intro evs mtype event payload ts hacc
    simp only [onWsMessage]
    rw [if_pos hacc]
  · intro evs mtype event payload ts hacc hlen
    simp only [onWsMessage]
    rw [if_pos hacc, List.dropLast_eq_take, hlen,
      show (50 : Nat) = 49 + 1 from rfl, List.take_succ_cons]

/-- Witness: an accepted frame arriving on a full 50-entry history evicts exactly the
oldest entry. -/
theorem eventHistory_bounded_witness :
    onWsMessage
        (List.replicate 50 { timestamp := "t0", etype := "Hangup", payload := "p" })
        (.msg (some "ami_event") none "q") "t1" =
      { timestamp := "t1", etype := "ami_event", payload := "q" } ::
        (List.replicate 50
          { timestamp := "t0", etype := "Hangup", payload := "p" }).dropLast :=
  (eventHistory_bounded []).2.2.1
    (List.replicate 50 { timestamp := "t0", etype := "Hangup", payload := "p" })
    (some "ami_event") none "q" "t1" (by decide) (by simp)

/-! ## AMIControlView reconnect policy -/

/-- Every lifecycle step appends one constant 5000 ms timer per close and nothing
else. -/
lemma wsFoldl_delays (trace : List WsLifecycleEvent) :
    ∀ st : WsConnState,
      (trace.foldl wsStep st).scheduledDelaysMs =
        st.scheduledDelaysMs ++
          (trace.filter (fun ev => ev = WsLifecycleEvent.closed)).map
            (fun _ => 5000) := by
  induction trace with
  | nil => intro st; simp
  | cons ev tr ih =>
    intro st
    cases ev with
    | opened =>
      have h := ih { st with wsConnected := true }
      simpa [wsStep, List.filter_cons] using h
    | messaged =>
      have h := ih st
      simpa [wsStep, List.filter_cons] using h
    | closed =>
      have h := ih
        { st with wsConnected := false, closes := st.closes + 1
                , scheduledDelaysMs := st.scheduledDelaysMs ++ [5000] }
      simpa [wsStep, List.filter_cons, List.append_assoc, List.singleton_append] using h

/-- C10: over any connection-lifecycle trace the view schedules exactly one reconnect
timer per close, every one of them with the constant 5000 ms delay — the delay never
grows with prior failures and no close goes without a scheduled retry. -/
theorem reconnect_constantDelay (trace : List WsLifecycleEvent) :
    (wsRun trace).scheduledDelaysMs =
      (trace.filter (fun ev => ev = WsLifecycleEvent.closed)).map (fun _ => 5000) ∧
    (wsRun trace).scheduledDelaysMs.length =
      (trace.filter (fun ev => ev = WsLifecycleEvent.closed)).length ∧
    (∀ d ∈ (wsRun trace).scheduledDelaysMs, d = 5000) := by
  have h : (wsRun trace).scheduledDelaysMs =
      (trace.filter (fun ev => ev = WsLifecycleEvent.closed)).map (fun _ => 5000) := by
    have h0 := wsFoldl_delays trace
      { wsConnected := false, closes := 0, scheduledDelaysMs := [] }
    simpa using h0
  refine ⟨h, by rw [h, List.length_map], ?_⟩
  intro d hd
  rw [h] at hd
  obtain ⟨x, hx, hdx⟩ := List.mem_map.mp hd
  exact hdx.symm

/-- Witness: two closes schedule exactly the delays `[5000, 5000]`, each 5000 ms. -/
theorem reconnect_constantDelay_witness :
    (wsRun [.opened, .closed, .closed]).scheduledDelaysMs = [5000, 5000] ∧
    (5000 : Nat) = 5000 :=
  ⟨(reconnect_constantDelay [.opened, .closed, .closed]).1,
   (reconnect_constantDelay [.opened, .closed, .closed]).2.2 5000 (by decide)⟩

end AMI
